import Mathlib

/-!
Verification of the HealthSpeak medicine-backend repository.

This file gives a shallow embedding, in Lean 4, of the parts of the
repository exercised by the specification claims:

* the input-sanitization and validation helpers of `src/lib/utils.ts`
  (`sanitizeInput`, `validateTextInput`);
* the medical-abbreviation dictionary and `expandAbbreviations` of
  `src/lib/dictionary.ts`;
* the MongoDB-backed history store of `src/lib/db-history.ts`
  (`getHistory`, `addHistory`, `updateHistory`, `deleteHistory`,
  `getHistoryById`, `searchHistory`);
* the HTTP handlers `GET /api/history` and `POST /api/tts`.

The backing document database is an external collaborator; its per-call
semantics (insert, find by `_id`, `$set` update, delete-one, filtered
and sorted find) are made explicit on a `DB` state value.  A database
failure of a single call is injected through an explicit `dbError`
flag, mirroring the `try`/`catch` structure of the source.  MongoDB's
`$text` operator (backed by the text index created in
`src/lib/mongodb.ts`) is modelled as an abstract match predicate.
JavaScript `Date.now` timestamps are passed in as an explicit `now`
string argument.
-/

/-! ### Character utilities shared by the regex-flavoured helpers -/

/-- The JavaScript regex `\w` class on code points: ASCII letters, digits,
underscore. -/
def wordNat (n : Nat) : Bool :=
  (65 ≤ n && n ≤ 90) || (97 ≤ n && n ≤ 122) || (48 ≤ n && n ≤ 57) || n == 95

/-- JavaScript regex `\w` character class: ASCII letters, digits, underscore. -/
def isWordChar (c : Char) : Bool :=
  wordNat c.toNat

/-- Case-insensitive character comparison, as the `i` regex flag gives. -/
def ciEqCh (a b : Char) : Bool :=
  a.toLower = b.toLower

/-- Case-insensitive check that `pat` matches the beginning of a string. -/
def ciStarts : List Char → List Char → Bool
  | [], _ => true
  | _ :: _, [] => false
  | p :: ps, c :: cs => ciEqCh p c && ciStarts ps cs

/-- Case-insensitive substring occurrence: `pat` matches somewhere inside
the second list.  This is the semantics of a (metacharacter-free) pattern
under `$regex` with option `i`, and of `/pat/i.test(text)`. -/
def ciSubOcc (pat : List Char) : List Char → Bool
  | [] => ciStarts pat []
  | c :: t => ciStarts pat (c :: t) || ciSubOcc pat t

/-- Case-insensitive "contains" on strings. -/
def ciContainsStr (s pat : String) : Bool :=
  ciSubOcc pat.data s.data

/-- The whitespace characters removed by JavaScript `String.prototype.trim`
(restricted to the ASCII range used by this code base). -/
def isTrimWS (c : Char) : Bool :=
  c = ' ' || c = '\t' || c = '\n' || c = '\r' || c = Char.ofNat 11 || c = Char.ofNat 12

/-- Trim whitespace from both ends, as `.trim()` does. -/
def jsTrim (cs : List Char) : List Char :=
  ((cs.dropWhile isTrimWS).reverse.dropWhile isTrimWS).reverse

/-- UTF-8 byte-order comparison on char lists (codepoint order), the order
MongoDB uses for BSON string sorting. -/
def leChars : List Char → List Char → Bool
  | [], _ => true
  | _ :: _, [] => false
  | a :: as, b :: bs =>
    if a.toNat < b.toNat then true
    else if b.toNat < a.toNat then false
    else leChars as bs

/-- String comparison in MongoDB sort order. -/
def leStr (a b : String) : Bool :=
  leChars a.data b.data

/-! ### `sanitizeInput` (src/lib/utils.ts)

```ts
export function sanitizeInput(str: string): string {
  if (!str || typeof str !== "string") return ""
  return str
    .replace(/<[^>]+>/g, "")   // Remove HTML tags
    .replace(/[<>'"&]/g, "")   // Remove potentially dangerous characters
    .trim()
}
```
-/

/-- The five characters removed by the second `replace` of `sanitizeInput`:
angle brackets, apostrophe, double quote, ampersand. -/
def isDangerousChar (c : Char) : Bool :=
  c = '<' || c = '>' || c = Char.ofNat 39 || c = Char.ofNat 34 || c = '&'

/-- One global pass of `/<[^>]+>/g`: at each `<` the regex consumes up to the
first later `>` provided at least one character stands between them; where no
such `>` exists (or it is immediate, as in `<>`) the scanner keeps the
character and moves on.  `fuel` bounds the recursion; the wrapper passes the
input length, which suffices since every step consumes at least one char. -/
def stripTagsF : Nat → List Char → List Char
  | 0, s => s
  | _ + 1, [] => []
  | fuel + 1, c :: cs =>
    if c = '<' then
      match cs.findIdx? (· = '>') with
      | some k => if 1 ≤ k then stripTagsF fuel (cs.drop (k + 1)) else c :: stripTagsF fuel cs
      | none => c :: stripTagsF fuel cs
    else c :: stripTagsF fuel cs

/-- `str.replace(/<[^>]+>/g, "")`. -/
def stripTags (s : List Char) : List Char :=
  stripTagsF s.length s

/-- `sanitizeInput` of src/lib/utils.ts.  The `!str` guard collapses the empty
string (the only falsy `string` value) to `""`; the non-string branch is not
representable in a typed embedding and likewise yields `""`. -/
def sanitizeInput (s : String) : String :=
  if s = "" then ""
  else String.mk (jsTrim ((stripTags s.data).filter (fun c => !isDangerousChar c)))

/-! ### `validateTextInput` (src/lib/utils.ts) -/

/-- Result shape `{ isValid, errors, warnings? }` of src/utils/types.ts. -/
structure ValidationResult where
  isValid : Bool
  errors : List String
  warnings : Option (List String)
  deriving Repr, DecidableEq

/-- Matcher for the suspicious pattern `/on\w+\s*=/i` anchored at the head of
the list: `on`, at least one `\w`, any `\s*`, then `=`.  Because `\w`, `\s`
and `=` are pairwise disjoint, the greedy scan below is exact. -/
def onHandlerAt : List Char → Bool
  | o :: n :: rest =>
    ciEqCh o 'o' && ciEqCh n 'n' &&
      (match rest.takeWhile isWordChar with
       | [] => false
       | _ :: _ =>
         match (rest.dropWhile isWordChar).dropWhile isTrimWS with
         | '=' :: _ => true
         | _ => false)
  | _ => false

/-- `/on\w+\s*=/i.test text`: the anchored matcher succeeds at some position. -/
def hasOnHandler : List Char → Bool
  | [] => onHandlerAt []
  | c :: t => onHandlerAt (c :: t) || hasOnHandler t

/-- The fixed suspicious-pattern battery of `validateTextInput`:
`/<script/i`, `/javascript:/i`, `/on\w+\s*=/i`, `/data:text\/html/i`. -/
def suspiciousText (text : String) : Bool :=
  ciSubOcc "<script".data text.data ||
  ciSubOcc "javascript:".data text.data ||
  hasOnHandler text.data ||
  ciSubOcc "data:text/html".data text.data

/-- `validateTextInput` of src/lib/utils.ts.  The empty string (the falsy
`string` input) takes the early `{ isValid: false }` return that carries no
`warnings` field. -/
def validateTextInput (text : String) (maxLength : Nat := 10000) : ValidationResult :=
  if text = "" then
    { isValid := false, errors := ["Text input is required"], warnings := none }
  else
    let errors :=
      (if text.length > maxLength then
        ["Text exceeds maximum length of " ++ toString maxLength ++ " characters"]
       else []) ++
      (if suspiciousText text then ["Text contains potentially harmful content"] else [])
    let warnings :=
      if text.length < 10 then ["Text seems very short, results may not be accurate"] else []
    { isValid := errors.isEmpty, errors := errors, warnings := some warnings }

/-! ### Medical abbreviation dictionary (src/lib/dictionary.ts) -/

/-- `MedicalAbbreviation` of src/utils/types.ts. -/
structure MedicalAbbreviation where
  abbreviation : String
  fullForm : String
  category : String
  description : Option String
  commonUsage : List String
  deriving Repr, DecidableEq

/-- The static `medicalAbbreviations` table of src/lib/dictionary.ts,
in source order. -/
def medicalAbbreviations : List MedicalAbbreviation := [
  { abbreviation := "bid", fullForm := "twice a day", category := "frequency",
    description := some "Take medication two times per day",
    commonUsage := ["Take 1 tablet bid", "Apply cream bid"] },
  { abbreviation := "tid", fullForm := "three times a day", category := "frequency",
    description := some "Take medication three times per day",
    commonUsage := ["Take 1 capsule tid", "Use drops tid"] },
  { abbreviation := "qid", fullForm := "four times a day", category := "frequency",
    description := some "Take medication four times per day",
    commonUsage := ["Take 1 tablet qid", "Apply ointment qid"] },
  { abbreviation := "qd", fullForm := "once a day", category := "frequency",
    description := some "Take medication once per day",
    commonUsage := ["Take 1 tablet qd", "Apply patch qd"] },
  { abbreviation := "q12h", fullForm := "every 12 hours", category := "frequency",
    description := some "Take medication every 12 hours",
    commonUsage := ["Take 1 tablet q12h", "Use inhaler q12h"] },
  { abbreviation := "q8h", fullForm := "every 8 hours", category := "frequency",
    description := some "Take medication every 8 hours",
    commonUsage := ["Take 1 capsule q8h", "Apply cream q8h"] },
  { abbreviation := "q6h", fullForm := "every 6 hours", category := "frequency",
    description := some "Take medication every 6 hours",
    commonUsage := ["Take 1 tablet q6h", "Use drops q6h"] },
  { abbreviation := "q4h", fullForm := "every 4 hours", category := "frequency",
    description := some "Take medication every 4 hours",
    commonUsage := ["Take 1 tablet q4h", "Apply ointment q4h"] },
  { abbreviation := "prn", fullForm := "as needed", category := "frequency",
    description := some "Take medication only when needed",
    commonUsage := ["Take 1 tablet prn pain", "Use inhaler prn shortness of breath"] },
  { abbreviation := "ac", fullForm := "before meals", category := "timing",
    description := some "Take medication before eating",
    commonUsage := ["Take 1 tablet ac", "Take 30 minutes ac"] },
  { abbreviation := "pc", fullForm := "after meals", category := "timing",
    description := some "Take medication after eating",
    commonUsage := ["Take 1 tablet pc", "Take 1 hour pc"] },
  { abbreviation := "hs", fullForm := "at bedtime", category := "timing",
    description := some "Take medication before going to sleep",
    commonUsage := ["Take 1 tablet hs", "Apply cream hs"] },
  { abbreviation := "po", fullForm := "by mouth", category := "route",
    description := some "Take medication orally",
    commonUsage := ["Take 1 tablet po", "Take syrup po"] },
  { abbreviation := "iv", fullForm := "intravenous", category := "route",
    description := some "Given through a vein",
    commonUsage := ["Administer iv", "Give medication iv"] },
  { abbreviation := "im", fullForm := "intramuscular", category := "route",
    description := some "Given as an injection into muscle",
    commonUsage := ["Give injection im", "Administer vaccine im"] },
  { abbreviation := "sc", fullForm := "subcutaneous", category := "route",
    description := some "Given as an injection under the skin",
    commonUsage := ["Give insulin sc", "Administer injection sc"] },
  { abbreviation := "sl", fullForm := "under the tongue", category := "route",
    description := some "Place medication under tongue to dissolve",
    commonUsage := ["Place tablet sl", "Use spray sl"] },
  { abbreviation := "mg", fullForm := "milligrams", category := "dosage",
    description := some "Unit of measurement for medication strength",
    commonUsage := ["Take 500mg", "Apply 10mg cream"] },
  { abbreviation := "mcg", fullForm := "micrograms", category := "dosage",
    description := some "Unit of measurement for very small doses",
    commonUsage := ["Take 25mcg", "Use 100mcg inhaler"] },
  { abbreviation := "ml", fullForm := "milliliters", category := "dosage",
    description := some "Unit of measurement for liquid medications",
    commonUsage := ["Take 5ml syrup", "Use 2ml drops"] },
  { abbreviation := "caps", fullForm := "capsules", category := "form",
    description := some "Medication in capsule form",
    commonUsage := ["Take 2 caps", "Swallow caps whole"] },
  { abbreviation := "tabs", fullForm := "tablets", category := "form",
    description := some "Medication in tablet form",
    commonUsage := ["Take 1 tabs", "Crush tabs if needed"] }
]

/-! ### Whole-word regex replacement

`expandAbbreviations` runs, per table entry,
`text.replace(new RegExp("\\b" + abbr + "\\b", "gi"), fullForm)`.
Every abbreviation token consists of word characters, so the `\b` at the
start demands a non-word (or absent) previous character and the `\b` at the
end a non-word (or absent) next character.  The scan below mirrors the
global replace: it walks the text carrying the wordness of the previous
character, replaces at a match, resumes after the matched region (the
replacement text is not rescanned in the same pass), and otherwise advances
one character. -/

/-- Whole-word match of `pat` at the head of `s`, given whether the
preceding character is a word character.  Faithful to `\bpat\b` for a
word-character pattern. -/
def wwAt (pat : List Char) (prevW : Bool) (s : List Char) : Bool :=
  !prevW && ciStarts pat s &&
    (match s.drop pat.length with
     | [] => true
     | c :: _ => !isWordChar c)

/-- Wordness of the last character of a matched pattern: the scan state to
resume with after a replacement. -/
def lastIsWord (pat : List Char) (prevW : Bool) : Bool :=
  match pat.getLast? with
  | some c => isWordChar c
  | none => prevW

/-- The global-replace scan.  `fuel` bounds recursion; the wrapper passes
the text length, sufficient because every step consumes at least one
character (patterns are nonempty in every use). -/
def wwScan (pat rep : List Char) : Nat → Bool → List Char → List Char
  | 0, _, s => s
  | _ + 1, _, [] => []
  | fuel + 1, prevW, c :: cs =>
    if wwAt pat prevW (c :: cs) then
      rep ++ wwScan pat rep fuel (lastIsWord pat prevW) ((c :: cs).drop pat.length)
    else
      c :: wwScan pat rep fuel (isWordChar c) cs

/-- `text.replace(new RegExp("\\b" + pat + "\\b", "gi"), rep)`. -/
def replaceWW (pat rep text : List Char) : List Char :=
  wwScan pat rep text.length false text

/-- The scan with its canonical fuel (the remaining text length); for a
nonempty pattern the fuel never runs out, so this is the value of the scan
from any sufficient fuel. -/
def wwRun (pat rep : List Char) (prevW : Bool) (s : List Char) : List Char :=
  wwScan pat rep s.length prevW s

/-- A whole-word, case-insensitive occurrence of `pat` exists somewhere in
the list, given the wordness of the character preceding the list. -/
def hasWWFrom (pat : List Char) (prevW : Bool) : List Char → Bool
  | [] => false
  | c :: cs => wwAt pat prevW (c :: cs) || hasWWFrom pat (isWordChar c) cs

/-- A standalone (whole-word, case-insensitive) occurrence of `pat` in `text`. -/
def hasWholeWord (pat text : List Char) : Bool :=
  hasWWFrom pat false text

/-- `expandAbbreviations` of src/lib/dictionary.ts: fold the whole-word
replacement over the abbreviation table in source order. -/
def expandAbbreviations (text : String) : String :=
  String.mk (medicalAbbreviations.foldl
    (fun t a => replaceWW a.abbreviation.data a.fullForm.data t) text.data)

/-! ### Data model (src/utils/types.ts) -/

/-- The `form` union of `Medicine`. -/
inductive MedicineForm where
  | tablet | capsule | syrup | injection | cream | drops | inhaler | other
  deriving Repr, DecidableEq

/-- `Medicine` of src/utils/types.ts. -/
structure Medicine where
  id : String
  name : String
  genericName : Option String
  brandName : Option String
  strength : String
  form : MedicineForm
  category : String
  description : Option String
  deriving Repr, DecidableEq

/-- The `beforeAfterMeal` union of `Dosage`. -/
inductive MealRelation where
  | beforeMeal | afterMeal | withMeal | anytime
  deriving Repr, DecidableEq

/-- `Dosage` of src/utils/types.ts. -/
structure Dosage where
  amount : String
  unit : String
  frequency : String
  duration : String
  instructions : String
  timings : List String
  beforeAfterMeal : MealRelation
  specialInstructions : Option String
  deriving Repr, DecidableEq

/-- `PrescriptionItem` of src/utils/types.ts. -/
structure PrescriptionItem where
  id : String
  medicine : Medicine
  dosage : Dosage
  quantity : String
  refills : Int
  warnings : Option (List String)
  sideEffects : Option (List String)
  deriving Repr, DecidableEq

/-- `DoctorInfo` of src/utils/types.ts. -/
structure DoctorInfo where
  name : String
  specialization : Option String
  license : Option String
  contact : Option String
  hospital : Option String
  deriving Repr, DecidableEq

/-- `PatientInfo` of src/utils/types.ts. -/
structure PatientInfo where
  name : Option String
  age : Option String
  gender : Option String
  weight : Option String
  allergies : Option (List String)
  deriving Repr, DecidableEq

/-- `Prescription` of src/utils/types.ts. -/
structure Prescription where
  id : String
  patientInfo : PatientInfo
  doctorInfo : DoctorInfo
  prescriptionDate : String
  items : List PrescriptionItem
  diagnosis : Option String
  notes : Option String
  followUpDate : Option String
  emergencyContact : Option String
  deriving Repr, DecidableEq

/-- The `processingStatus` union of `HistoryItem`. -/
inductive ProcessingStatus where
  | pending | completed | failed
  deriving Repr, DecidableEq

/-- `HistoryItem` of src/utils/types.ts: the record shape returned to the
frontend, with the string `id` derived from the Mongo `_id`. -/
structure HistoryItem where
  id : String
  originalText : String
  simplifiedText : String
  prescription : Option Prescription
  imageUrl : Option String
  processingStatus : ProcessingStatus
  createdAt : String
  updatedAt : String
  tags : Option (List String)
  deriving Repr, DecidableEq

/-! ### The MongoDB collection state (modelling the external collaborator)

The `history` collection holds documents whose `_id` is a 24-character hex
ObjectId.  `src/lib/db-history.ts` converts `_id` to the string `id` on the
way out (`doc._id.toString()`), and generates `_id` on insert.  The
collection is modelled as an insertion-ordered list of documents plus a
counter feeding fresh ObjectIds (the driver guarantees freshness). -/

/-- A stored document: a `HistoryItem` keyed by its ObjectId hex string. -/
structure HistoryDoc where
  oid : String
  originalText : String
  simplifiedText : String
  prescription : Option Prescription
  imageUrl : Option String
  processingStatus : ProcessingStatus
  createdAt : String
  updatedAt : String
  tags : Option (List String)
  deriving Repr, DecidableEq

/-- `doc => ({ ...doc, id: doc._id.toString(), _id: undefined })`. -/
def docToItem (d : HistoryDoc) : HistoryItem :=
  { id := d.oid, originalText := d.originalText, simplifiedText := d.simplifiedText,
    prescription := d.prescription, imageUrl := d.imageUrl,
    processingStatus := d.processingStatus, createdAt := d.createdAt,
    updatedAt := d.updatedAt, tags := d.tags }

/-- The collection state plus the driver's fresh-ObjectId source. -/
structure DB where
  docs : List HistoryDoc
  nextId : Nat
  deriving Repr, DecidableEq

/-- Hex digit characters, upper or lower case, as accepted by the
`ObjectId` constructor. -/
def isHexDigit (c : Char) : Bool :=
  ('0' ≤ c && c ≤ '9') || ('a' ≤ c && c ≤ 'f') || ('A' ≤ c && c ≤ 'F')

/-- A well-formed ObjectId input string: exactly 24 hex characters.  Any
other string makes `new ObjectId(id)` throw. -/
def validObjectId (s : String) : Bool :=
  s.length == 24 && s.data.all isHexDigit

/-- `new ObjectId(id)`: `none` models the constructor throwing on a
malformed id; a well-formed id is canonicalised to lower case, which is the
form `toString` later prints. -/
def toObjectId (s : String) : Option String :=
  if validObjectId s then some (String.mk (s.data.map Char.toLower)) else none

/-- The lower-case hex digits used by `ObjectId.toString`. -/
def hexDigit (k : Nat) : Char :=
  "0123456789abcdef".data.getD k '0'

/-- The fresh ObjectId (as its 24-char lower-case hex string) produced by
the driver for the `n`-th insert. -/
def genId (n : Nat) : String :=
  String.mk ((List.range 24).map (fun i => hexDigit (n / 16 ^ (23 - i) % 16)))

/-- `deleteOne`: remove the first document matching the ObjectId. -/
def eraseFirst (oid : String) : List HistoryDoc → List HistoryDoc
  | [] => []
  | d :: ds => if d.oid == oid then ds else d :: eraseFirst oid ds

/-! ### Sorting (`.sort({ createdAt: -1 })`)

MongoDB sorts BSON strings by UTF-8 byte order; descending `createdAt`
places the newest document first.  Insertion sort keeps the model
executable and is provably a sorted permutation of its input. -/

/-- Insert a document into a list kept in descending `createdAt` order. -/
def insertByCreated (d : HistoryDoc) : List HistoryDoc → List HistoryDoc
  | [] => [d]
  | e :: es => if leStr e.createdAt d.createdAt then d :: e :: es else e :: insertByCreated d es

/-- `.sort({ createdAt: -1 })`: newest first. -/
def sortByCreatedDesc (l : List HistoryDoc) : List HistoryDoc :=
  l.foldr insertByCreated []

/-! ### The history store (src/lib/db-history.ts)

Each function takes the collection state, an explicit `now` timestamp where
the source calls `new Date().toISOString()`, and a `dbError` flag modelling
the underlying database call throwing; the `Except`/`Option` result mirrors
the `try`/`catch` of the source (`.error` is a thrown `Error`). -/

/-- `getHistory(limit, skip)`: find all, sort newest first, paginate.  The
server applies `skip` before `limit` regardless of cursor-call order.  On
any database failure the `catch` returns `[]`. -/
def getHistory (limit skip : Nat) (db : DB) (dbError : Bool) :
    Except String (List HistoryItem) :=
  if dbError then .ok []
  else .ok ((((sortByCreatedDesc db.docs).drop skip).take limit).map docToItem)

/-- The request body of `addHistory`:
`Omit<HistoryItem, "id" | "createdAt" | "updatedAt">`. -/
structure NewHistoryItem where
  originalText : String
  simplifiedText : String
  prescription : Option Prescription
  imageUrl : Option String
  processingStatus : ProcessingStatus
  tags : Option (List String)
  deriving Repr, DecidableEq

/-- `addHistory(item)`: stamp `createdAt`/`updatedAt`, insert with a fresh
ObjectId, and return the created item with the string id.  The source
calls `new Date().toISOString()` twice — once for `createdAt` and once
for `updatedAt` — so the two timestamps are separate clock reads
(`nowC`, then `nowU`), which coincide only when both calls fall in the
same millisecond.  A database failure is rethrown as
`"Failed to save prescription to database"`. -/
def addHistory (item : NewHistoryItem) (nowC nowU : String) (db : DB) (dbError : Bool) :
    Except String (HistoryItem × DB) :=
  if dbError then .error "Failed to save prescription to database"
  else
    let doc : HistoryDoc :=
      { oid := genId db.nextId,
        originalText := item.originalText, simplifiedText := item.simplifiedText,
        prescription := item.prescription, imageUrl := item.imageUrl,
        processingStatus := item.processingStatus,
        createdAt := nowC, updatedAt := nowU, tags := item.tags }
    .ok (docToItem doc, { docs := db.docs ++ [doc], nextId := db.nextId + 1 })

/-- `Partial<HistoryItem>`: every field optionally present. -/
structure HistoryPatch where
  id : Option String := none
  originalText : Option String := none
  simplifiedText : Option String := none
  prescription : Option Prescription := none
  imageUrl : Option String := none
  processingStatus : Option ProcessingStatus := none
  createdAt : Option String := none
  updatedAt : Option String := none
  tags : Option (List String) := none
  deriving Repr, DecidableEq

/-- `$set` with the prepared update document: every key present in the
patch overwrites the stored field; absent keys are untouched.  `_id` is
never part of the patch (it was stripped), so `oid` is preserved. -/
def applyPatch (d : HistoryDoc) (p : HistoryPatch) : HistoryDoc :=
  { oid := d.oid,
    originalText := p.originalText.getD d.originalText,
    simplifiedText := p.simplifiedText.getD d.simplifiedText,
    prescription := (p.prescription.map some).getD d.prescription,
    imageUrl := (p.imageUrl.map some).getD d.imageUrl,
    processingStatus := p.processingStatus.getD d.processingStatus,
    createdAt := p.createdAt.getD d.createdAt,
    updatedAt := p.updatedAt.getD d.updatedAt,
    tags := (p.tags.map some).getD d.tags }

/-- `findOneAndUpdate`: `$set` on the first matching document. -/
def setFirst (oid : String) (p : HistoryPatch) : List HistoryDoc → List HistoryDoc
  | [] => []
  | d :: ds => if d.oid == oid then applyPatch d p :: ds else d :: setFirst oid p ds

/-- `updateHistory(id, updates)`: builds
`{ ...updates, updatedAt: now, id: undefined, _id: undefined }` — dropping
`id`/`_id` from the patch but leaving a caller-supplied `createdAt` in
place — and `$set`s it on the document found by ObjectId.  Returns `none`
when no document matches.  A malformed id (ObjectId constructor throw) or a
database failure is rethrown as
`"Failed to update prescription in database"`. -/
def updateHistory (id : String) (updates : HistoryPatch) (now : String) (db : DB)
    (dbError : Bool) : Except String (Option HistoryItem × DB) :=
  match toObjectId id with
  | none => .error "Failed to update prescription in database"
  | some oid =>
    if dbError then .error "Failed to update prescription in database"
    else
      let updateData : HistoryPatch := { updates with updatedAt := some now, id := none }
      match db.docs.find? (fun d => d.oid == oid) with
      | none => .ok (none, db)
      | some d =>
        .ok (some (docToItem (applyPatch d updateData)),
             { db with docs := setFirst oid updateData db.docs })

/-- `deleteHistory(id)`: `deleteOne` by ObjectId; returns whether a
document was removed.  A malformed id or a database failure is rethrown as
`"Failed to delete prescription from database"`. -/
def deleteHistory (id : String) (db : DB) (dbError : Bool) :
    Except String (Bool × DB) :=
  match toObjectId id with
  | none => .error "Failed to delete prescription from database"
  | some oid =>
    if dbError then .error "Failed to delete prescription from database"
    else .ok (db.docs.any (fun d => d.oid == oid),
              { db with docs := eraseFirst oid db.docs })

/-- `getHistoryById(id)`: `findOne` by ObjectId.  Both a missing document
and any thrown error (malformed id, database failure) yield `null`. -/
def getHistoryById (id : String) (db : DB) (dbError : Bool) : Option HistoryItem :=
  if dbError then none
  else
    match toObjectId id with
    | none => none
    | some oid => (db.docs.find? (fun d => d.oid == oid)).map docToItem

/-- The `$or` search filter of `searchHistory`: the `$text` index match
(`tm`, an external engine feature) unioned with the case-insensitive
regex test of the raw `query` pattern (`{$regex: query, $options: "i"}`
server-side; `new RegExp(query, "i")` for the `tags` `$in` clause)
against `originalText`, `simplifiedText`, `prescription.diagnosis`, any
`prescription.items.medicine.name`, and any element of `tags`.  The
regex engine is external (PCRE on the server, the JS engine for the
`tags` clause); `rx subject query` abstracts its case-insensitive match.
For a query free of regex metacharacters, `rx` is exactly
case-insensitive substring containment (`ciContainsStr`); a query with
metacharacters is matched with regex semantics instead. -/
def searchFilter (tm : HistoryDoc → String → Bool) (rx : String → String → Bool)
    (query : String) (d : HistoryDoc) : Bool :=
  tm d query ||
  rx d.originalText query ||
  rx d.simplifiedText query ||
  (match d.prescription with
   | some p => match p.diagnosis with
     | some dg => rx dg query
     | none => false
   | none => false) ||
  (match d.prescription with
   | some p => p.items.any (fun it => rx it.medicine.name query)
   | none => false) ||
  (match d.tags with
   | some ts => ts.any (fun t => rx t query)
   | none => false)

/-- `searchHistory(query, limit)`: filter, sort newest first, limit.
`rxValid query` abstracts whether the query compiles as a regex pattern:
an invalid pattern makes `new RegExp(query, "i")` (or the server's
`$regex` compilation) throw inside the `try`, and the `catch` returns
`[]`, exactly as it does on any database failure. -/
def searchHistory (tm : HistoryDoc → String → Bool) (rxValid : String → Bool)
    (rx : String → String → Bool) (query : String) (limit : Nat)
    (db : DB) (dbError : Bool) : Except String (List HistoryItem) :=
  if dbError || !rxValid query then .ok []
  else .ok (((sortByCreatedDesc (db.docs.filter (searchFilter tm rx query))).take limit).map
    docToItem)

/-! ### HTTP handlers

`GET /api/history` (src/app/api/history/route.ts) and `POST /api/tts`
(src/app/api/tts/route.ts).  Query/body fields arrive as `Option` values
(`none` = absent); JavaScript truthiness tests (`if (query)`,
`if (!body.text)`, `x || default`) are modelled explicitly, with the empty
string and the number 0 falsy. -/

/-- JavaScript truthiness of an optional string parameter. -/
def truthyStr : Option String → Bool
  | none => false
  | some s => s ≠ ""

/-- `x || default` on an optional string (empty string is falsy). -/
def jsOrStr (o : Option String) (d : String) : String :=
  match o with
  | none => d
  | some s => if s = "" then d else s

/-- `x || default` on an optional number (0 is falsy; NaN is out of scope
of the rational model). -/
def jsOrNum (o : Option ℚ) (d : ℚ) : ℚ :=
  match o with
  | none => d
  | some x => if x = 0 then d else x

/-- Outcomes of `GET /api/history` relevant to the claims.  `badRequest`
carries `validation.errors.join(", ")` and answers HTTP 400; `notFound` is
the 404 branch; `listResp` is the 200 payload's `items`. -/
inductive GetHistoryResult where
  | statsResp
  | itemResp (item : HistoryItem)
  | notFound
  | badRequest (msg : String)
  | listResp (items : List HistoryItem)
  | serverError
  deriving Repr, DecidableEq

/-- The `GET /api/history` handler.  Parameters mirror `q`, `page`,
`limit`, `id`, `stats`.  An absent or empty `q` is falsy, so it skips the
search branch entirely and falls through to the paginated listing; a
truthy `q` is sanitized and validated (max length 100) before
`searchHistory` runs, whose results get client-side pagination. -/
def getHandlerGET (q : Option String) (page limit : Nat) (id : Option String)
    (stats : Bool) (tm : HistoryDoc → String → Bool) (rxValid : String → Bool)
    (rx : String → String → Bool) (db : DB) (dbError : Bool) :
    GetHistoryResult :=
  if stats then .statsResp
  else if truthyStr id then
    match getHistoryById (sanitizeInput (id.getD "")) db dbError with
    | none => .notFound
    | some item => .itemResp item
  else if truthyStr q then
    let sanitizedQuery := sanitizeInput (q.getD "")
    let validation := validateTextInput sanitizedQuery 100
    if !validation.isValid then .badRequest (String.intercalate ", " validation.errors)
    else
      match searchHistory tm rxValid rx sanitizedQuery limit db dbError with
      | .error _ => .serverError
      | .ok history => .listResp ((history.drop ((page - 1) * limit)).take limit)
  else
    match getHistory limit ((page - 1) * limit) db dbError with
    | .error _ => .serverError
    | .ok history => .listResp history

/-- The static client-instruction block of the TTS configuration. -/
structure TtsInstructions where
  useWebSpeechAPI : Bool
  fallbackMessage : String
  recommendedVoices : List String
  deriving Repr, DecidableEq

/-- The `ttsConfig` object `POST /api/tts` returns on success. -/
structure TtsConfig where
  text : String
  voice : String
  speed : ℚ
  language : String
  instructions : TtsInstructions
  deriving Repr, DecidableEq

/-- Outcomes of `POST /api/tts`: 400 with a message, or 200 with the
configuration. -/
inductive TtsResult where
  | badRequest (msg : String)
  | okResp (cfg : TtsConfig)
  deriving Repr, DecidableEq

/-- The `POST /api/tts` handler.  `!body.text` rejects an absent or empty
`text`; the sanitized text is validated with max length 5000; on success
`speed` is `Math.max(0.5, Math.min(2.0, body.speed || 1.0))` — note the
`||` turns a supplied speed of 0 into the default 1.0 before clamping. -/
def ttsHandlerPOST (text voice : Option String) (speed : Option ℚ)
    (language : Option String) : TtsResult :=
  if !truthyStr text then .badRequest "Text is required for TTS conversion"
  else
    let sanitizedText := sanitizeInput (text.getD "")
    let validation := validateTextInput sanitizedText 5000
    if !validation.isValid then
      .badRequest ("Text validation failed: " ++ String.intercalate ", " validation.errors)
    else
      .okResp
        { text := sanitizedText,
          voice := jsOrStr voice "default",
          speed := max (1/2 : ℚ) (min 2 (jsOrNum speed 1)),
          language := jsOrStr language "en-US",
          instructions :=
            { useWebSpeechAPI := true,
              fallbackMessage := "Text-to-speech is not supported in your browser",
              recommendedVoices :=
                ["Google US English", "Microsoft Zira - English (United States)", "Alex"] } }

/-! ### Concrete fixtures used by witnesses and counterexamples -/

/-- The always-false text-index matcher: a collection state whose text
index matches nothing beyond the regex clauses. -/
def tmNone : HistoryDoc → String → Bool := fun _ _ => false

/-- The empty collection. -/
def emptyDB : DB := { docs := [], nextId := 0 }

/-- A sample valid `addHistory` input. -/
def wNewItem : NewHistoryItem :=
  { originalText := "Take Paracetamol 500mg twice daily",
    simplifiedText := "Take 1 Paracetamol tablet (500mg) two times per day",
    prescription := none, imageUrl := none,
    processingStatus := .completed, tags := some ["fever"] }

/-- A sample timestamp. -/
def wNow : String := "2024-01-01T00:00:00.000Z"

/-- A stored sample document with a known ObjectId and creation time. -/
def wDoc : HistoryDoc :=
  { oid := "aaaaaaaaaaaaaaaaaaaaaaaa",
    originalText := "Take Paracetamol 500mg twice daily",
    simplifiedText := "Take 1 Paracetamol tablet (500mg) two times per day",
    prescription := none, imageUrl := none, processingStatus := .completed,
    createdAt := "2024-01-01T00:00:00.000Z", updatedAt := "2024-01-01T00:00:00.000Z",
    tags := some ["fever"] }

/-- A one-document collection holding `wDoc`. -/
def wDB : DB := { docs := [wDoc], nextId := 1 }

/-- A patch that tries to overwrite the protected fields. -/
def wBadPatch : HistoryPatch :=
  { id := some "ffffffffffffffffffffffff", createdAt := some "1999-12-31T00:00:00.000Z" }

/-- The regex engine on a metacharacter-free pattern: plain
case-insensitive substring containment. -/
def rxSub : String → String → Bool := fun subject pattern => ciContainsStr subject pattern

/-- An engine-validity instantiation on which every pattern compiles
(true for any metacharacter-free query). -/
def rxValidAll : String → Bool := fun _ => true

/-- An engine-validity instantiation recording the fact that the pattern
`"("` does not compile (an unbalanced group is a syntax error both for
JavaScript `RegExp` and for the server's regex engine). -/
def wRxValid : String → Bool := fun q => !(q == "(")

/-! ### Supporting lemmas: ObjectId generation and lookup -/

/-- Pointwise-fixed maps are the identity. -/
theorem map_eq_self_of_fixed {α : Type} (f : α → α) :
    ∀ l : List α, (∀ x ∈ l, f x = x) → l.map f = l := by
  intro l
  induction l with
  | nil => intro _; rfl
  | cons a t ih =>
    intro h
    simp only [List.map_cons]
    rw [h a (by simp), ih (fun x hx => h x (by simp [hx]))]

/-- Every bounded hex digit is a lower-case hex character fixed by `toLower`. -/
theorem hexDigit_ok : ∀ k, k < 16 → isHexDigit (hexDigit k) = true ∧ (hexDigit k).toLower = hexDigit k := by
  decide

/-- The generated ObjectId string has exactly 24 characters. -/
theorem genId_data_length (n : Nat) : (genId n).data.length = 24 := by
  simp [genId]

/-- The generated ObjectId is well formed. -/
theorem validObjectId_genId (n : Nat) : validObjectId (genId n) = true := by
  simp only [validObjectId, Bool.and_eq_true, beq_iff_eq]
  constructor
  · show (genId n).data.length = 24
    exact genId_data_length n
  · simp only [List.all_eq_true]
    intro c hc
    simp only [genId, List.mem_map] at hc
    obtain ⟨i, _, rfl⟩ := hc
    exact (hexDigit_ok _ (Nat.mod_lt _ (by norm_num))).1

/-- The generated ObjectId is already in canonical lower-case form. -/
theorem toObjectId_genId (n : Nat) : toObjectId (genId n) = some (genId n) := by
  simp only [toObjectId, validObjectId_genId, if_true]
  congr 1
  have : (genId n).data.map Char.toLower = (genId n).data := by
    apply map_eq_self_of_fixed
    intro c hc
    simp only [genId, List.mem_map] at hc
    obtain ⟨i, _, rfl⟩ := hc
    exact (hexDigit_ok _ (Nat.mod_lt _ (by norm_num))).2
  simp [this]

/-- The generated ObjectId is a nonempty string. -/
theorem genId_ne_empty (n : Nat) : genId n ≠ "" := by
  intro h
  have h24 : (genId n).data.length = 24 := genId_data_length n
  rw [h] at h24
  simp at h24

/-- `find?` over an appended singleton that is the only match. -/
theorem find?_append_singleton {p : HistoryDoc → Bool} (l : List HistoryDoc) (d : HistoryDoc)
    (hl : ∀ e ∈ l, p e = false) (hd : p d = true) :
    (l ++ [d]).find? p = some d := by
  induction l with
  | nil => simp [List.find?, hd]
  | cons a t ih =>
    simp only [List.cons_append, List.find?]
    rw [hl a (by simp)]
    exact ih (fun e he => hl e (by simp [he]))

/-- C1 counterexample: `addHistory` reads the clock twice — once for
`createdAt` (line 98 of the store) and once for `updatedAt` (line 99) —
so when the two `new Date().toISOString()` calls straddle a millisecond
boundary the stored record has `createdAt ≠ updatedAt`: the claimed
equality is not guaranteed by the program. -/
theorem addHistory_distinct_clock_reads :
    (match addHistory wNewItem "2024-01-01T00:00:00.000Z" "2024-01-01T00:00:00.001Z"
        emptyDB false with
     | .ok (it, _) => it.createdAt
     | .error _ => "") = "2024-01-01T00:00:00.000Z" ∧
    (match addHistory wNewItem "2024-01-01T00:00:00.000Z" "2024-01-01T00:00:00.001Z"
        emptyDB false with
     | .ok (it, _) => it.updatedAt
     | .error _ => "") = "2024-01-01T00:00:00.001Z" ∧
    "2024-01-01T00:00:00.000Z" ≠ "2024-01-01T00:00:00.001Z" := by
  refine ⟨rfl, rfl, by decide⟩

/-- C1 (amended): for every valid `addHistory` input (an item lacking id
and timestamps), the store persists the item and returns it with a
non-empty generated id, `createdAt` set by the first clock read and
`updatedAt` by the second (equal exactly when both reads fall in the same
millisecond, which the program does not guarantee), and `getHistoryById`
with that id immediately afterwards returns an equal record.  `hfresh` is
the driver's guarantee that the generated ObjectId is fresh. -/
theorem addHistory_then_getById (item : NewHistoryItem) (nowC nowU : String) (db : DB)
    (hfresh : ∀ d ∈ db.docs, d.oid ≠ genId db.nextId) :
    ∃ it db', addHistory item nowC nowU db false = .ok (it, db') ∧
      it.id ≠ "" ∧ it.createdAt = nowC ∧ it.updatedAt = nowU ∧
      (nowC = nowU → it.createdAt = it.updatedAt) ∧
      getHistoryById it.id db' false = some it := by
  refine ⟨_, _, rfl, genId_ne_empty _, rfl, rfl, fun h => h, ?_⟩
  show getHistoryById (genId db.nextId) _ false = _
  simp only [getHistoryById, Bool.false_eq_true, if_false, toObjectId_genId]
  rw [find?_append_singleton db.docs _
    (fun e he => beq_eq_false_iff_ne.mpr (hfresh e he)) (by simp)]
  rfl

/-- Witness for the amended C1 at a concrete input: the sample item added
to the empty collection with both clock reads in the same millisecond. -/
theorem addHistory_then_getById_witness :
    ∃ it db', addHistory wNewItem wNow wNow emptyDB false = .ok (it, db') ∧
      it.id ≠ "" ∧ it.createdAt = wNow ∧ it.updatedAt = wNow ∧
      (wNow = wNow → it.createdAt = it.updatedAt) ∧
      getHistoryById it.id db' false = some it :=
  addHistory_then_getById wNewItem wNow wNow emptyDB (by intro d hd; simp [emptyDB] at hd)

/-- C4: `getHistoryById` returns the matching record when one exists and
`none` when it does not; a malformed id (not a well-formed ObjectId) also
yields `none`, and the function has no error outcome distinct from
not-found (any thrown error is caught and collapsed to `null`, including a
database failure). -/
theorem getHistoryById_spec (id : String) (db : DB) :
    (validObjectId id = false → getHistoryById id db false = none) ∧
    (∀ oid d, toObjectId id = some oid →
      db.docs.find? (fun e => e.oid == oid) = some d →
      getHistoryById id db false = some (docToItem d)) ∧
    (∀ oid, toObjectId id = some oid →
      db.docs.find? (fun e => e.oid == oid) = none →
      getHistoryById id db false = none) ∧
    getHistoryById id db true = none := by
  refine ⟨?_, ?_, ?_, rfl⟩
  · intro hbad
    simp [getHistoryById, toObjectId, hbad]
  · intro oid d hid hfind
    simp [getHistoryById, hid, hfind]
  · intro oid hid hfind
    simp [getHistoryById, hid, hfind]

/-- Witness for C4 at concrete inputs: the malformed id `"zzz"` yields
`none` on the sample collection; the stored id yields the stored record. -/
theorem getHistoryById_spec_witness :
    getHistoryById "zzz" wDB false = none ∧
    getHistoryById "aaaaaaaaaaaaaaaaaaaaaaaa" wDB false = some (docToItem wDoc) :=
  ⟨(getHistoryById_spec "zzz" wDB).1 (by decide),
   (getHistoryById_spec "aaaaaaaaaaaaaaaaaaaaaaaa" wDB).2.1 "aaaaaaaaaaaaaaaaaaaaaaaa" wDoc
     (by decide) (by decide)⟩

/-! ### Supporting lemmas: delete-one -/

/-- After removing the only match, nothing matches any more. -/
theorem any_eraseFirst_eq_false (oid : String) (l : List HistoryDoc)
    (h : l.countP (fun d => d.oid == oid) ≤ 1) :
    (eraseFirst oid l).any (fun d => d.oid == oid) = false := by
  induction l with
  | nil => rfl
  | cons d ds ih =>
    by_cases hd : (d.oid == oid) = true
    · simp only [eraseFirst, hd, if_true]
      rw [List.countP_cons] at h
      simp only [hd, if_true] at h
      have h0 : ds.countP (fun d => d.oid == oid) = 0 := by omega
      rw [List.any_eq_false]
      intro x hx
      exact (List.countP_eq_zero.mp h0) x hx
    · have hd' : (d.oid == oid) = false := by simpa using hd
      simp only [eraseFirst, hd', Bool.false_eq_true, if_false, List.any_cons, Bool.false_or]
      rw [List.countP_cons] at h
      simp only [hd', Bool.false_eq_true, if_false] at h
      exact ih (by omega)

/-- Removing a match from a match-free list changes nothing. -/
theorem eraseFirst_of_no_match (oid : String) (l : List HistoryDoc)
    (h : l.any (fun d => d.oid == oid) = false) :
    eraseFirst oid l = l := by
  induction l with
  | nil => rfl
  | cons d ds ih =>
    rw [List.any_eq_false] at h
    have hd : (d.oid == oid) = false := by
      have := h d (by simp)
      simpa using this
    simp only [eraseFirst, hd, Bool.false_eq_true, if_false]
    rw [ih (by rw [List.any_eq_false]; intro x hx; exact h x (by simp [hx]))]

/-- C5 (amended): for a well-formed id, `deleteHistory` returns exactly
whether a matching record was present, and it is idempotent — the second
delete of the same id returns `false` (provided ids are unique in the
collection, which the store's ObjectId generation guarantees). -/
theorem deleteHistory_wellformed_spec (id oid : String) (db : DB)
    (hid : toObjectId id = some oid)
    (huniq : db.docs.countP (fun d => d.oid == oid) ≤ 1) :
    ∃ db', deleteHistory id db false = .ok (db.docs.any (fun d => d.oid == oid), db') ∧
      deleteHistory id db' false = .ok (false, db') := by
  refine ⟨{ db with docs := eraseFirst oid db.docs }, ?_, ?_⟩
  · simp [deleteHistory, hid]
  · have hnone : (eraseFirst oid db.docs).any (fun d => d.oid == oid) = false :=
      any_eraseFirst_eq_false oid db.docs huniq
    simp [deleteHistory, hid, hnone, eraseFirst_of_no_match oid _ hnone]

/-- Witness for the amended C5: deleting the stored sample id returns
`true`, then `false`. -/
theorem deleteHistory_wellformed_spec_witness :
    ∃ db', deleteHistory "aaaaaaaaaaaaaaaaaaaaaaaa" wDB false = .ok (true, db') ∧
      deleteHistory "aaaaaaaaaaaaaaaaaaaaaaaa" db' false = .ok (false, db') := by
  obtain ⟨db', h1, h2⟩ :=
    deleteHistory_wellformed_spec "aaaaaaaaaaaaaaaaaaaaaaaa" "aaaaaaaaaaaaaaaaaaaaaaaa" wDB
      (by decide) (by decide)
  have : wDB.docs.any (fun d => d.oid == "aaaaaaaaaaaaaaaaaaaaaaaa") = true := by decide
  rw [this] at h1
  exact ⟨db', h1, h2⟩

/-- C5 counterexample: a malformed (hence non-existent) id makes
`deleteHistory` surface a storage error instead of returning `false` —
`new ObjectId("x")` throws and the catch block rethrows. -/
theorem deleteHistory_malformed_error :
    deleteHistory "x" emptyDB false = .error "Failed to delete prescription from database" := by
  rfl

/-- C2 counterexample: `updateHistory` builds
`{ ...updates, updatedAt, id: undefined, _id: undefined }` — it strips `id`
and `_id` but not `createdAt`, so a patch carrying `createdAt` overwrites
the stored creation time: updating the sample record (created
`2024-01-01`) with `wBadPatch` stores and returns `createdAt =
"1999-12-31T00:00:00.000Z"`. -/
theorem updateHistory_overwrites_createdAt :
    (match updateHistory "aaaaaaaaaaaaaaaaaaaaaaaa" wBadPatch "2024-02-02T00:00:00.000Z" wDB false with
     | .ok (some it, _) => it.createdAt
     | _ => "") = "1999-12-31T00:00:00.000Z" ∧
    wDoc.createdAt = "2024-01-01T00:00:00.000Z" ∧
    "1999-12-31T00:00:00.000Z" ≠ "2024-01-01T00:00:00.000Z" := by
  refine ⟨rfl, rfl, by decide⟩

/-- C2 (amended): `updateHistory` merges exactly the fields present in the
patch, never lets the caller overwrite `id` (a patch `id` is dropped and
the ObjectId is immutable), and always refreshes `updatedAt` to `now`
(a patch `updatedAt` is overridden); with an empty patch every field other
than `updatedAt` is unchanged.  However a `createdAt` key present in the
patch is applied: `createdAt` is not protected. -/
theorem updateHistory_spec (id oid : String) (p : HistoryPatch) (now : String)
    (db : DB) (d : HistoryDoc)
    (hid : toObjectId id = some oid)
    (hfind : db.docs.find? (fun e => e.oid == oid) = some d) :
    ∃ it db', updateHistory id p now db false = .ok (some it, db') ∧
      it.id = d.oid ∧
      it.updatedAt = now ∧
      it.originalText = p.originalText.getD d.originalText ∧
      it.simplifiedText = p.simplifiedText.getD d.simplifiedText ∧
      it.prescription = (p.prescription.map some).getD d.prescription ∧
      it.imageUrl = (p.imageUrl.map some).getD d.imageUrl ∧
      it.processingStatus = p.processingStatus.getD d.processingStatus ∧
      it.tags = (p.tags.map some).getD d.tags ∧
      it.createdAt = p.createdAt.getD d.createdAt := by
  have heq : updateHistory id p now db false =
      .ok (some (docToItem (applyPatch d { p with updatedAt := some now, id := none })),
           { db with docs := setFirst oid { p with updatedAt := some now, id := none } db.docs }) := by
    simp only [updateHistory, hid, Bool.false_eq_true, if_false, hfind]
  exact ⟨_, _, heq, rfl, rfl, rfl, rfl, rfl, rfl, rfl, rfl, rfl⟩

/-- Witness for the amended C2: updating the sample record with the
protected-field patch keeps `id`, refreshes `updatedAt`, and (the
documented deviation) applies the patched `createdAt`. -/
theorem updateHistory_spec_witness :
    ∃ it db', updateHistory "aaaaaaaaaaaaaaaaaaaaaaaa" wBadPatch "2024-02-02T00:00:00.000Z" wDB false =
        .ok (some it, db') ∧
      it.id = wDoc.oid ∧
      it.updatedAt = "2024-02-02T00:00:00.000Z" ∧
      it.originalText = wBadPatch.originalText.getD wDoc.originalText ∧
      it.simplifiedText = wBadPatch.simplifiedText.getD wDoc.simplifiedText ∧
      it.prescription = (wBadPatch.prescription.map some).getD wDoc.prescription ∧
      it.imageUrl = (wBadPatch.imageUrl.map some).getD wDoc.imageUrl ∧
      it.processingStatus = wBadPatch.processingStatus.getD wDoc.processingStatus ∧
      it.tags = (wBadPatch.tags.map some).getD wDoc.tags ∧
      it.createdAt = wBadPatch.createdAt.getD wDoc.createdAt :=
  updateHistory_spec "aaaaaaaaaaaaaaaaaaaaaaaa" "aaaaaaaaaaaaaaaaaaaaaaaa" wBadPatch
    "2024-02-02T00:00:00.000Z" wDB wDoc (by decide) (by decide)

/-- C3 (amended): no retries exist anywhere — a single failed database
call decides the outcome — and `addHistory`, `updateHistory` and
`deleteHistory` do surface that failure as an error; but `getHistory` and
`searchHistory` catch the failure and return an empty array instead of
propagating it, and `getHistoryById` collapses it to `null`. -/
theorem store_single_failure_behavior :
    (∀ limit skip db, getHistory limit skip db true = .ok []) ∧
    (∀ tm rxValid rx q limit db, searchHistory tm rxValid rx q limit db true = .ok []) ∧
    (∀ id db, getHistoryById id db true = none) ∧
    (∀ item nowC nowU db,
      addHistory item nowC nowU db true = .error "Failed to save prescription to database") ∧
    (∀ id p now db,
      updateHistory id p now db true = .error "Failed to update prescription in database") ∧
    (∀ id db,
      deleteHistory id db true = .error "Failed to delete prescription from database") := by
  refine ⟨fun _ _ _ => rfl, fun _ _ _ _ _ _ => rfl, fun _ _ => rfl, fun _ _ _ _ => rfl, ?_, ?_⟩
  · intro id p now db
    unfold updateHistory
    cases toObjectId id <;> simp
  · intro id db
    unfold deleteHistory
    cases toObjectId id <;> simp

/-- C3 counterexample: a failed database call inside `getHistory` or
`searchHistory` does not surface to the caller — both return a successful
empty array, although the same collection read succeeds with data when the
call does not fail. -/
theorem getHistory_swallows_failure :
    getHistory 100 0 wDB true = .ok [] ∧
    searchHistory tmNone rxValidAll rxSub "Paracetamol" 50 wDB true = .ok [] ∧
    getHistory 100 0 wDB false = .ok [docToItem wDoc] ∧
    searchHistory tmNone rxValidAll rxSub "Paracetamol" 50 wDB false = .ok [docToItem wDoc] := by
  refine ⟨rfl, rfl, rfl, rfl⟩

/-! ### Supporting lemmas: sanitization -/

/-- The tag-stripping scan only ever emits characters of its input. -/
theorem mem_stripTagsF : ∀ fuel s c, c ∈ stripTagsF fuel s → c ∈ s := by
  intro fuel
  induction fuel with
  | zero => intro s c hc; exact hc
  | succ n ih =>
    intro s c hc
    match s with
    | [] => exact hc
    | a :: cs =>
      by_cases ha : a = '<'
      · rw [stripTagsF, if_pos ha] at hc
        split at hc
        · split at hc
          · have := ih _ _ hc
            exact List.mem_cons_of_mem _ (List.drop_subset _ _ this)
          · rcases List.mem_cons.mp hc with h | h
            · exact h ▸ List.mem_cons_self _ _
            · exact List.mem_cons_of_mem _ (ih _ _ h)
        · rcases List.mem_cons.mp hc with h | h
          · exact h ▸ List.mem_cons_self _ _
          · exact List.mem_cons_of_mem _ (ih _ _ h)
      · rw [stripTagsF, if_neg ha] at hc
        rcases List.mem_cons.mp hc with h | h
        · exact h ▸ List.mem_cons_self _ _
        · exact List.mem_cons_of_mem _ (ih _ _ h)

/-- `dropWhile` only ever keeps characters of its input. -/
theorem mem_dropWhile_subset {p : Char → Bool} :
    ∀ (l : List Char) (c : Char), c ∈ List.dropWhile p l → c ∈ l := by
  intro l
  induction l with
  | nil => intro c hc; exact hc
  | cons a t ih =>
    intro c hc
    rw [List.dropWhile_cons] at hc
    by_cases ha : p a = true
    · rw [if_pos ha] at hc
      exact List.mem_cons_of_mem _ (ih c hc)
    · rw [if_neg ha] at hc
      exact hc

/-- Trimming only ever keeps characters of its input. -/
theorem mem_jsTrim (l : List Char) (c : Char) (hc : c ∈ jsTrim l) : c ∈ l := by
  unfold jsTrim at hc
  rw [List.mem_reverse] at hc
  have := mem_dropWhile_subset _ _ hc
  rw [List.mem_reverse] at this
  exact mem_dropWhile_subset _ _ this

/-- C9: the output of `sanitizeInput` never contains any of the five
dangerous characters `< > ' " &` (in particular no tag-like sequence can
survive, as both angle brackets are gone), and the empty input — the falsy
`string` — yields the empty string rather than an error; the specification
example evaluates as claimed. -/
theorem sanitizeInput_safe :
    (∀ s c, c ∈ (sanitizeInput s).data → isDangerousChar c = false) ∧
    sanitizeInput "" = "" ∧
    sanitizeInput "<script>alert(1)</script>hello" = "alert(1)hello" := by
  refine ⟨?_, rfl, rfl⟩
  intro s c hc
  by_cases hs : s = ""
  · rw [hs] at hc
    simp [sanitizeInput] at hc
  · rw [sanitizeInput, if_neg hs] at hc
    have hmem : c ∈ ((stripTags s.data).filter (fun c => !isDangerousChar c)) :=
      mem_jsTrim _ _ hc
    have := (List.mem_filter.mp hmem).2
    simpa using this

/-- Witness for C9 at the specification's concrete input. -/
theorem sanitizeInput_safe_witness :
    ('a' ∈ (sanitizeInput "<script>alert(1)</script>hello").data) ∧
    isDangerousChar 'a' = false :=
  ⟨by decide, sanitizeInput_safe.1 "<script>alert(1)</script>hello" 'a' (by decide)⟩

/-! ### Supporting lemmas: whitespace-only input -/

/-- A whitespace character is not `<`. -/
theorem isTrimWS_ne_lt (c : Char) (h : isTrimWS c = true) : ¬(c = '<') := by
  intro h'
  rw [h'] at h
  simp [isTrimWS] at h

/-- The tag scan is the identity on `<`-free input. -/
theorem stripTagsF_no_lt : ∀ fuel s, (∀ c ∈ s, ¬(c = '<')) → stripTagsF fuel s = s := by
  intro fuel
  induction fuel with
  | zero => intro s _; rfl
  | succ n ih =>
    intro s h
    match s with
    | [] => rfl
    | a :: cs =>
      rw [stripTagsF, if_neg (h a (List.mem_cons_self _ _))]
      rw [ih cs (fun c hc => h c (List.mem_cons_of_mem _ hc))]

/-- Sanitizing a whitespace-only string gives the empty string. -/
theorem sanitizeInput_all_ws (s : String) (h : s.data.all isTrimWS = true) :
    sanitizeInput s = "" := by
  by_cases hs : s = ""
  · rw [hs]; rfl
  · rw [sanitizeInput, if_neg hs]
    rw [List.all_eq_true] at h
    have h1 : stripTags s.data = s.data :=
      stripTagsF_no_lt _ _ (fun c hc => isTrimWS_ne_lt c (h c hc))
    rw [stripTags] at h1
    rw [show stripTags s.data = stripTagsF s.data.length s.data from rfl, h1]
    have h2 : s.data.filter (fun c => !isDangerousChar c) = s.data := by
      rw [List.filter_eq_self]
      intro a ha
      have := h a ha
      revert this
      simp [isTrimWS, isDangerousChar]
      rintro (((((rfl | rfl) | rfl) | rfl) | rfl) | rfl) <;> decide
    rw [h2]
    have h3 : s.data.dropWhile isTrimWS = [] := by
      rw [List.dropWhile_eq_nil_iff]
      exact fun x hx => h x hx
    rw [jsTrim, h3]
    rfl

/-- C7 counterexample: `GET /history` with an empty `q` is not rejected —
`if (query)` is falsy on `""`, so the handler answers 200 with the
paginated listing (here the empty collection's empty page), not an HTTP
400 validation failure. -/
theorem emptyQuery_not_rejected :
    getHandlerGET (some "") 1 20 none false tmNone rxValidAll rxSub emptyDB false =
      .listResp [] := by
  rfl

/-- C7 (amended): an empty `q` behaves exactly like an absent `q` — the
search path (and its potential match-all) is never entered, the paginated
listing answers instead — while a whitespace-only `q` is truthy, sanitizes
to the empty string, and is rejected by upstream validation with HTTP 400
and message `"Text input is required"`. -/
theorem emptyQuery_vs_whitespaceQuery :
    (∀ page limit id stats tm rxValid rx db e,
      getHandlerGET (some "") page limit id stats tm rxValid rx db e =
        getHandlerGET none page limit id stats tm rxValid rx db e) ∧
    (∀ s page limit tm rxValid rx db e, s ≠ "" → s.data.all isTrimWS = true →
      getHandlerGET (some s) page limit none false tm rxValid rx db e =
        .badRequest "Text input is required") := by
  constructor
  · intro page limit id stats tm rxValid rx db e
    rfl
  · intro s page limit tm rxValid rx db e hne hws
    have ht : truthyStr (some s) = true := by
      simp [truthyStr, hne]
    have hq : (some s).getD "" = s := rfl
    simp only [getHandlerGET, Bool.false_eq_true, if_false, truthyStr, ht, if_true, hq,
      sanitizeInput_all_ws s hws]
    rw [if_pos (decide_eq_true hne)]
    rfl

/-- Witness for the amended C7: a single-space query on the sample
collection is rejected with the validation message. -/
theorem emptyQuery_vs_whitespaceQuery_witness :
    getHandlerGET (some " ") 1 20 none false tmNone rxValidAll rxSub wDB false =
      .badRequest "Text input is required" :=
  emptyQuery_vs_whitespaceQuery.2 " " 1 20 tmNone rxValidAll rxSub wDB false
    (by decide) (by decide)

/-- C10 counterexample: for a request whose text passes sanitization and
validation but carries `speed: 0`, the handler returns speed `1.0`
(because `body.speed || 1.0` treats 0 as falsy), while the claimed clamp
`min(2.0, max(0.5, 0))` is `0.5`. -/
theorem tts_speed_zero_not_clamped :
    (match ttsHandlerPOST (some "Take two tablets daily") none (some 0) none with
     | .okResp cfg => cfg.speed
     | .badRequest _ => 0) = 1 ∧
    min 2 (max (1/2 : ℚ) 0) = 1/2 ∧
    (1 : ℚ) ≠ 1/2 := by
  refine ⟨?_, by norm_num, by norm_num⟩
  have h : ttsHandlerPOST (some "Take two tablets daily") none (some 0) none =
      .okResp
        { text := sanitizeInput "Take two tablets daily",
          voice := "default",
          speed := max (1/2 : ℚ) (min 2 (jsOrNum (some 0) 1)),
          language := "en-US",
          instructions :=
            { useWebSpeechAPI := true,
              fallbackMessage := "Text-to-speech is not supported in your browser",
              recommendedVoices :=
                ["Google US English", "Microsoft Zira - English (United States)", "Alex"] } } := by
    rfl
  rw [h]
  show max (1/2 : ℚ) (min 2 (jsOrNum (some 0) 1)) = 1
  rw [show jsOrNum (some 0) 1 = 1 from rfl]
  norm_num

/-- C10 (amended): for every `POST /tts` request whose text passes
sanitization and validation, the returned speed is
`Math.max(0.5, Math.min(2.0, speed || 1.0))`: a supplied nonzero speed is
clamped into `[0.5, 2.0]`, an absent speed defaults to `1.0`, but a
supplied speed of `0` is falsy and also yields the default `1.0` rather
than the clamp value `0.5`; `voice` defaults to `"default"` and `language`
to `"en-US"` when not supplied. -/
theorem tts_config_spec (text : String) (voice : Option String) (speed : Option ℚ)
    (language : Option String)
    (hne : text ≠ "")
    (hvalid : (validateTextInput (sanitizeInput text) 5000).isValid = true) :
    ∃ cfg, ttsHandlerPOST (some text) voice speed language = .okResp cfg ∧
      cfg.text = sanitizeInput text ∧
      (voice = none → cfg.voice = "default") ∧
      (language = none → cfg.language = "en-US") ∧
      cfg.speed = max (1/2 : ℚ) (min 2 (jsOrNum speed 1)) ∧
      (speed = none → cfg.speed = 1) ∧
      (∀ x, speed = some x → ¬(x = 0) → cfg.speed = max (1/2) (min 2 x)) ∧
      (speed = some 0 → cfg.speed = 1) ∧
      1/2 ≤ cfg.speed ∧ cfg.speed ≤ 2 := by
  have ht : truthyStr (some text) = true := by simp [truthyStr, hne]
  have hred : ttsHandlerPOST (some text) voice speed language =
      .okResp
        { text := sanitizeInput text,
          voice := jsOrStr voice "default",
          speed := max (1/2 : ℚ) (min 2 (jsOrNum speed 1)),
          language := jsOrStr language "en-US",
          instructions :=
            { useWebSpeechAPI := true,
              fallbackMessage := "Text-to-speech is not supported in your browser",
              recommendedVoices :=
                ["Google US English", "Microsoft Zira - English (United States)", "Alex"] } } := by
    simp only [ttsHandlerPOST, ht, Bool.not_true, Bool.false_eq_true, if_false]
    rw [show (some text).getD "" = text from rfl]
    rw [hvalid]
    rfl
  refine ⟨_, hred, rfl, ?_, ?_, rfl, ?_, ?_, ?_, le_max_left _ _, ?_⟩
  · rintro rfl; rfl
  · rintro rfl; rfl
  · rintro rfl
    show max (1/2 : ℚ) (min 2 (jsOrNum none 1)) = 1
    rw [show jsOrNum none 1 = 1 from rfl]
    norm_num
  · rintro x rfl hx
    show max (1/2 : ℚ) (min 2 (jsOrNum (some x) 1)) = max (1/2) (min 2 x)
    rw [jsOrNum, if_neg hx]
  · rintro rfl
    show max (1/2 : ℚ) (min 2 (jsOrNum (some 0) 1)) = 1
    rw [show jsOrNum (some 0) 1 = 1 from rfl]
    norm_num
  · exact max_le (by norm_num) (min_le_left _ _)

/-- Witness for the amended C10: a valid text with requested speed 3 is
clamped down to 2. -/
theorem tts_config_spec_witness :
    ∃ cfg, ttsHandlerPOST (some "Take two tablets daily") none (some 3) none = .okResp cfg ∧
      cfg.speed = 2 := by
  obtain ⟨cfg, heq, _, _, _, _, _, hsome, _, _, _⟩ :=
    tts_config_spec "Take two tablets daily" none (some 3) none (by decide) (by decide)
  refine ⟨cfg, heq, ?_⟩
  rw [hsome 3 rfl (by norm_num)]
  norm_num

/-! ### Supporting lemmas: the newest-first sort -/

/-- The MongoDB string order is total. -/
theorem leChars_total : ∀ a b : List Char, leChars a b = true ∨ leChars b a = true := by
  intro a
  induction a with
  | nil => intro b; left; rfl
  | cons x xs ih =>
    intro b
    cases b with
    | nil => right; rfl
    | cons y ys =>
      by_cases h1 : x.toNat < y.toNat
      · left; simp [leChars, h1]
      · by_cases h2 : y.toNat < x.toNat
        · right; simp [leChars, h2]
        · rcases ih ys with h | h
          · left; simp [leChars, h1, h2, h]
          · right; simp [leChars, h1, h2, h]

/-- The MongoDB string order is transitive. -/
theorem leChars_trans : ∀ a b c : List Char,
    leChars a b = true → leChars b c = true → leChars a c = true := by
  intro a
  induction a with
  | nil => intro b c _ _; rfl
  | cons x xs ih =>
    intro b c hab hbc
    cases b with
    | nil => simp [leChars] at hab
    | cons y ys =>
      cases c with
      | nil => simp [leChars] at hbc
      | cons z zs =>
        simp only [leChars] at hab hbc ⊢
        by_cases hxy : x.toNat < y.toNat
        · by_cases hyz : y.toNat < z.toNat
          · simp [show x.toNat < z.toNat by omega]
          · by_cases hzy : z.toNat < y.toNat
            · simp [hyz, hzy] at hbc
            · simp [show x.toNat < z.toNat by omega]
        · by_cases hyx : y.toNat < x.toNat
          · simp [hxy, hyx] at hab
          · by_cases hyz : y.toNat < z.toNat
            · simp [show x.toNat < z.toNat by omega]
            · by_cases hzy : z.toNat < y.toNat
              · simp [hyz, hzy] at hbc
              · have hxz : ¬ x.toNat < z.toNat := by omega
                have hzx : ¬ z.toNat < x.toNat := by omega
                simp only [hxy, hyx, if_false, if_neg hxy, if_neg hyx] at hab
                simp only [if_neg hyz, if_neg hzy] at hbc
                simp only [if_neg hxz, if_neg hzx]
                exact ih ys zs hab hbc

/-- Totality of the string order. -/
theorem leStr_total (a b : String) : leStr a b = true ∨ leStr b a = true :=
  leChars_total a.data b.data

/-- Transitivity of the string order. -/
theorem leStr_trans (a b c : String) (h1 : leStr a b = true) (h2 : leStr b c = true) :
    leStr a c = true :=
  leChars_trans a.data b.data c.data h1 h2

/-- Inserting into the sorted list is a permutation of consing. -/
theorem insertByCreated_perm (d : HistoryDoc) (l : List HistoryDoc) :
    List.Perm (insertByCreated d l) (d :: l) := by
  induction l with
  | nil => exact .refl _
  | cons e es ih =>
    rw [insertByCreated]
    by_cases h : leStr e.createdAt d.createdAt = true
    · rw [if_pos h]
    · rw [if_neg h]
      exact .trans (.cons e ih) (.swap d e es)

/-- The sort is a permutation of its input. -/
theorem sortByCreatedDesc_perm (l : List HistoryDoc) :
    List.Perm (sortByCreatedDesc l) l := by
  induction l with
  | nil => exact .refl _
  | cons d ds ih =>
    exact .trans (insertByCreated_perm d (sortByCreatedDesc ds)) (.cons d ih)

/-- Insertion preserves the descending-`createdAt` pairwise order. -/
theorem insertByCreated_pairwise (d : HistoryDoc) (l : List HistoryDoc)
    (hl : l.Pairwise (fun a b => leStr b.createdAt a.createdAt = true)) :
    (insertByCreated d l).Pairwise (fun a b => leStr b.createdAt a.createdAt = true) := by
  induction l with
  | nil => simp [insertByCreated]
  | cons e es ih =>
    rw [List.pairwise_cons] at hl
    rw [insertByCreated]
    by_cases h : leStr e.createdAt d.createdAt = true
    · rw [if_pos h]
      rw [List.pairwise_cons]
      constructor
      · intro x hx
        rcases List.mem_cons.mp hx with rfl | hx
        · exact h
        · exact leStr_trans _ _ _ (hl.1 x hx) h
      · rw [List.pairwise_cons]
        exact hl
    · rw [if_neg h]
      rw [List.pairwise_cons]
      constructor
      · intro x hx
        have hx' := (insertByCreated_perm d es).mem_iff.mp hx
        rcases List.mem_cons.mp hx' with rfl | hx''
        · rcases leStr_total e.createdAt x.createdAt with h' | h'
          · exact absurd h' h
          · exact h'
        · exact hl.1 x hx''
      · exact ih hl.2

/-- The sorted collection is in descending `createdAt` order. -/
theorem sortByCreatedDesc_pairwise (l : List HistoryDoc) :
    (sortByCreatedDesc l).Pairwise (fun a b => leStr b.createdAt a.createdAt = true) := by
  induction l with
  | nil => simp [sortByCreatedDesc]
  | cons d ds ih => exact insertByCreated_pairwise d (sortByCreatedDesc ds) ih

/-- The `$or` filter holds exactly when the text-index matcher fires or
the regex engine matches the query in one of the five regex targets. -/
theorem searchFilter_eq_true_iff (tm : HistoryDoc → String → Bool)
    (rx : String → String → Bool) (q : String) (d : HistoryDoc) :
    searchFilter tm rx q d = true ↔
      tm d q = true ∨
      rx d.originalText q = true ∨
      rx d.simplifiedText q = true ∨
      (∃ p dg, d.prescription = some p ∧ p.diagnosis = some dg ∧
        rx dg q = true) ∨
      (∃ p item, d.prescription = some p ∧ item ∈ p.items ∧
        rx item.medicine.name q = true) ∨
      (∃ ts t, d.tags = some ts ∧ t ∈ ts ∧ rx t q = true) := by
  rcases hp : d.prescription with _ | p
  · rcases htg : d.tags with _ | ts <;>
      simp [searchFilter, hp, htg, List.any_eq_true] <;> aesop
  · rcases htg : d.tags with _ | ts <;>
      rcases hdiag : p.diagnosis with _ | dg <;>
      simp [searchFilter, hp, htg, hdiag, List.any_eq_true] <;> aesop

/-- C6 counterexample: a query containing regex metacharacters is not
matched as a substring.  With the pattern `"("` — which does not compile,
as `wRxValid` records — the thrown constructor/compilation error is caught
and `searchHistory` returns an empty array, although the sample record
contains `"("` case-insensitively in `simplifiedText` and the limit
admits it: the substring-match reading of the claim fails at this
query. -/
theorem searchHistory_metachar_query :
    searchHistory tmNone wRxValid rxSub "(" 50 wDB false = .ok [] ∧
    ciContainsStr wDoc.simplifiedText "(" = true := by
  refine ⟨rfl, by decide⟩

/-- C6 (amended): `searchHistory` returns at most `limit` results ordered
newest-first by `createdAt`; each result matches the query via the text
index (`tm`) or via the engine's case-insensitive regex test (`rx`)
against `originalText`, `simplifiedText`, the prescription diagnosis,
medicine names within line items, or tags, and when no more than `limit`
records match every matching record is returned.  A query that fails to
compile as a regex makes search return an empty array (the throw is
caught), and only for queries the engine matches literally — in
particular every metacharacter-free query — is the match exactly
case-insensitive substring containment. -/
theorem searchHistory_spec (tm : HistoryDoc → String → Bool) (rxValid : String → Bool)
    (rx : String → String → Bool) (q : String) (limit : Nat) (db : DB) :
    (rxValid q = false → searchHistory tm rxValid rx q limit db false = .ok []) ∧
    (rxValid q = true →
      ∃ res, searchHistory tm rxValid rx q limit db false = .ok res ∧
        res.length ≤ limit ∧
        res.Pairwise (fun a b => leStr b.createdAt a.createdAt = true) ∧
        (∀ it ∈ res, ∃ d ∈ db.docs, docToItem d = it ∧
          (tm d q = true ∨
           rx d.originalText q = true ∨
           rx d.simplifiedText q = true ∨
           (∃ p dg, d.prescription = some p ∧ p.diagnosis = some dg ∧
             rx dg q = true) ∨
           (∃ p item, d.prescription = some p ∧ item ∈ p.items ∧
             rx item.medicine.name q = true) ∨
           (∃ ts t, d.tags = some ts ∧ t ∈ ts ∧ rx t q = true))) ∧
        (db.docs.countP (searchFilter tm rx q) ≤ limit →
          ∀ d ∈ db.docs, searchFilter tm rx q d = true → docToItem d ∈ res)) ∧
    (∀ d : HistoryDoc, (∀ s, rx s q = ciContainsStr s q) →
      (searchFilter tm rx q d = true ↔
        tm d q = true ∨
        ciContainsStr d.originalText q = true ∨
        ciContainsStr d.simplifiedText q = true ∨
        (∃ p dg, d.prescription = some p ∧ p.diagnosis = some dg ∧
          ciContainsStr dg q = true) ∨
        (∃ p item, d.prescription = some p ∧ item ∈ p.items ∧
          ciContainsStr item.medicine.name q = true) ∨
        (∃ ts t, d.tags = some ts ∧ t ∈ ts ∧ ciContainsStr t q = true))) := by
  refine ⟨?_, ?_, ?_⟩
  · intro hbad
    simp [searchHistory, hbad]
  · intro hok
    have heq : searchHistory tm rxValid rx q limit db false =
        .ok (((sortByCreatedDesc (db.docs.filter (searchFilter tm rx q))).take
          limit).map docToItem) := by
      simp [searchHistory, hok]
    refine ⟨_, heq, ?_, ?_, ?_, ?_⟩
    · rw [List.length_map, List.length_take]
      exact min_le_left _ _
    · refine List.Pairwise.map docToItem (fun a b h => h) ?_
      exact List.Pairwise.sublist (List.take_sublist _ _) (sortByCreatedDesc_pairwise _)
    · intro it hit
      obtain ⟨d, hd, rfl⟩ := List.mem_map.mp hit
      have hd1 : d ∈ sortByCreatedDesc (db.docs.filter (searchFilter tm rx q)) :=
        (List.take_sublist _ _).subset hd
      have hd2 : d ∈ db.docs.filter (searchFilter tm rx q) :=
        (sortByCreatedDesc_perm _).mem_iff.mp hd1
      obtain ⟨hmem, hmatch⟩ := List.mem_filter.mp hd2
      exact ⟨d, hmem, rfl, (searchFilter_eq_true_iff tm rx q d).mp hmatch⟩
    · intro hcount d hd hmatch
      have hlen : (sortByCreatedDesc (db.docs.filter (searchFilter tm rx q))).length ≤ limit := by
        rw [(sortByCreatedDesc_perm _).length_eq, ← List.countP_eq_length_filter]
        exact hcount
      rw [List.take_of_length_le hlen]
      exact List.mem_map_of_mem docToItem
        ((sortByCreatedDesc_perm _).mem_iff.mpr (List.mem_filter.mpr ⟨hd, hmatch⟩))
  · intro d hlit
    rw [searchFilter_eq_true_iff tm rx q d]
    constructor <;>
      (rintro (h | h | h | ⟨p, dg, h1, h2, h3⟩ | ⟨p, item, h1, h2, h3⟩ | ⟨ts, t, h1, h2, h3⟩))
    · exact Or.inl h
    · exact Or.inr (Or.inl (by rw [← hlit]; exact h))
    · exact Or.inr (Or.inr (Or.inl (by rw [← hlit]; exact h)))
    · exact Or.inr (Or.inr (Or.inr (Or.inl ⟨p, dg, h1, h2, by rw [← hlit]; exact h3⟩)))
    · exact Or.inr (Or.inr (Or.inr (Or.inr (Or.inl ⟨p, item, h1, h2, by rw [← hlit]; exact h3⟩))))
    · exact Or.inr (Or.inr (Or.inr (Or.inr (Or.inr ⟨ts, t, h1, h2, by rw [← hlit]; exact h3⟩))))
    · exact Or.inl h
    · exact Or.inr (Or.inl (by rw [hlit]; exact h))
    · exact Or.inr (Or.inr (Or.inl (by rw [hlit]; exact h)))
    · exact Or.inr (Or.inr (Or.inr (Or.inl ⟨p, dg, h1, h2, by rw [hlit]; exact h3⟩)))
    · exact Or.inr (Or.inr (Or.inr (Or.inr (Or.inl ⟨p, item, h1, h2, by rw [hlit]; exact h3⟩))))
    · exact Or.inr (Or.inr (Or.inr (Or.inr (Or.inr ⟨ts, t, h1, h2, by rw [hlit]; exact h3⟩))))

/-- Witness for the amended C6: searching the sample collection for
`"fever"` (a metacharacter-free query — the engine instantiation is plain
substring containment — hitting a tag) returns the sample record within
the limit. -/
theorem searchHistory_spec_witness :
    ∃ res, searchHistory tmNone rxValidAll rxSub "fever" 50 wDB false = .ok res ∧
      docToItem wDoc ∈ res ∧ res.length ≤ 50 := by
  obtain ⟨_, hvalid, _⟩ := searchHistory_spec tmNone rxValidAll rxSub "fever" 50 wDB
  obtain ⟨res, heq, hlen, _, _, hcomp⟩ := hvalid rfl
  exact ⟨res, heq, hcomp (by decide) wDoc (by decide) (by decide), hlen⟩

/-! ### Supporting lemmas: whole-word replacement -/

/-- Lowercasing a bounded code point stays in range. -/
theorem toNat_ofNat_of_upper (n : Nat) (h1 : 65 ≤ n) (h2 : n ≤ 90) :
    (Char.ofNat (n + 32)).toNat = n + 32 := by
  interval_cases n <;> decide

/-- Lowercasing does not change whether a character is a word character. -/
theorem isWordChar_toLower (c : Char) : isWordChar c.toLower = isWordChar c := by
  unfold Char.toLower
  by_cases h : 65 ≤ c.toNat ∧ c.toNat ≤ 90
  · rw [if_pos h]
    show wordNat (Char.ofNat (c.toNat + 32)).toNat = wordNat c.toNat
    rw [toNat_ofNat_of_upper c.toNat h.1 h.2]
    obtain ⟨h1, h2⟩ := h
    rw [Bool.eq_iff_iff]
    simp only [wordNat, Bool.or_eq_true, Bool.and_eq_true, decide_eq_true_eq, beq_iff_eq]
    omega
  · rw [if_neg h]

/-- A case-insensitive match transfers wordness between the characters. -/
theorem isWordChar_of_ciEqCh (p c : Char) (hp : isWordChar p = true)
    (hci : ciEqCh p c = true) : isWordChar c = true := by
  have hl : p.toLower = c.toLower := by
    simpa [ciEqCh] using hci
  calc isWordChar c = isWordChar c.toLower := (isWordChar_toLower c).symm
    _ = isWordChar p.toLower := by rw [hl]
    _ = isWordChar p := isWordChar_toLower p
    _ = true := hp

/-- A word-initial pattern cannot start matching at a non-word character. -/
theorem ciStarts_false_of_nonword (p : Char) (ps : List Char) (c : Char) (t : List Char)
    (hp : isWordChar p = true) (hc : isWordChar c = false) :
    ciStarts (p :: ps) (c :: t) = false := by
  rw [ciStarts]
  have : ciEqCh p c = false := by
    by_contra h
    rw [Bool.not_eq_false] at h
    rw [isWordChar_of_ciEqCh p c hp h] at hc
    exact absurd hc (by simp)
  rw [this]
  rfl

/-- The last character of a nonempty all-word pattern is a word character. -/
theorem lastIsWord_of_all (pat : List Char) (w : Bool) (hne : pat ≠ [])
    (hword : pat.all isWordChar = true) : lastIsWord pat w = true := by
  induction pat generalizing w with
  | nil => exact absurd rfl hne
  | cons p ps ih =>
    cases ps with
    | nil =>
      rw [lastIsWord]
      simp only [List.getLast?_singleton]
      simpa using hword
    | cons q qs =>
      have := ih (w := w) (by simp) (by simp only [List.all_cons, Bool.and_eq_true] at hword ⊢; exact hword.2)
      rw [lastIsWord] at this ⊢
      rwa [List.getLast?_cons_cons]

/-- For a nonempty pattern, the scan's value is independent of the fuel as
long as the fuel covers the text length. -/
theorem wwScan_fuel_irrelevant (pat rep : List Char) (hne : pat ≠ []) :
    ∀ f1 f2 prevW (s : List Char), s.length ≤ f1 → s.length ≤ f2 →
      wwScan pat rep f1 prevW s = wwScan pat rep f2 prevW s := by
  intro f1
  induction f1 with
  | zero =>
    intro f2 prevW s h1 _
    have : s = [] := List.eq_nil_of_length_eq_zero (Nat.le_zero.mp h1)
    subst this
    cases f2 <;> rfl
  | succ n ih =>
    intro f2 prevW s h1 h2
    cases s with
    | nil => cases f2 <;> rfl
    | cons c cs =>
      cases f2 with
      | zero => simp at h2
      | succ m =>
        rw [wwScan, wwScan]
        by_cases hm : wwAt pat prevW (c :: cs) = true
        · rw [if_pos hm, if_pos hm]
          congr 1
          have hplen : 1 ≤ pat.length := by
            cases pat with
            | nil => exact absurd rfl hne
            | cons _ _ => simp
          have hd : ((c :: cs).drop pat.length).length ≤ n := by
            rw [List.length_drop]
            simp only [List.length_cons] at h1 ⊢
            omega
          have hd2 : ((c :: cs).drop pat.length).length ≤ m := by
            rw [List.length_drop]
            simp only [List.length_cons] at h2 ⊢
            omega
          exact ih m _ _ hd hd2
        · rw [if_neg hm, if_neg hm]
          congr 1
          exact ih m (isWordChar c) cs (by simpa using Nat.le_of_succ_le_succ h1)
            (by simpa using Nat.le_of_succ_le_succ h2)

/-- The canonical-fuel scan satisfies the natural unfolding equation. -/
theorem wwRun_cons (pat rep : List Char) (hne : pat ≠ []) (prevW : Bool)
    (c : Char) (cs : List Char) :
    wwRun pat rep prevW (c :: cs) =
      if wwAt pat prevW (c :: cs) then
        rep ++ wwRun pat rep (lastIsWord pat prevW) ((c :: cs).drop pat.length)
      else
        c :: wwRun pat rep (isWordChar c) cs := by
  rw [wwRun]
  simp only [List.length_cons]
  rw [wwScan]
  by_cases hm : wwAt pat prevW (c :: cs) = true
  · rw [if_pos hm, if_pos hm]
    congr 1
    have hplen : 1 ≤ pat.length := by
      cases pat with
      | nil => exact absurd rfl hne
      | cons _ _ => simp
    exact wwScan_fuel_irrelevant pat rep hne _ _ _ _
      (by rw [List.length_drop]; simp; omega) (le_refl _)
  · rw [if_neg hm, if_neg hm]
    rfl

/-- Occurrence search from a non-word head does not depend on the
preceding-character state (a word-initial pattern cannot start there). -/
theorem hasWWFrom_state_irrelevant (pat : List Char) (hne : pat ≠ [])
    (hword : pat.all isWordChar = true) (c : Char) (t : List Char)
    (hc : isWordChar c = false) (w1 w2 : Bool) :
    hasWWFrom pat w1 (c :: t) = hasWWFrom pat w2 (c :: t) := by
  cases pat with
  | nil => exact absurd rfl hne
  | cons p ps =>
    have hp : isWordChar p = true := by
      simp only [List.all_cons, Bool.and_eq_true] at hword
      exact hword.1
    have hstart : ciStarts (p :: ps) (c :: t) = false :=
      ciStarts_false_of_nonword p ps c t hp hc
    rw [hasWWFrom, hasWWFrom]
    simp [wwAt, hstart]

/-- Appending beyond a non-word barrier does not change whether the
pattern matches at the front. -/
theorem ciStarts_append_barrier (pat : List Char) (hword : pat.all isWordChar = true) :
    ∀ (x z : List Char), (∀ d, z.head? = some d → isWordChar d = false) →
      ciStarts pat (x ++ z) = ciStarts pat x := by
  induction pat with
  | nil => intro x z _; rfl
  | cons p ps ih =>
    intro x z hz
    have hp : isWordChar p = true := by
      simp only [List.all_cons, Bool.and_eq_true] at hword
      exact hword.1
    cases x with
    | nil =>
      simp only [List.nil_append]
      cases z with
      | nil => rfl
      | cons d ds =>
        rw [ciStarts_false_of_nonword p ps d ds hp (hz d rfl)]
        rfl
    | cons a xs =>
      simp only [List.cons_append, ciStarts, List.append_eq]
      rw [ih (by simp only [List.all_cons, Bool.and_eq_true] at hword; exact hword.2) xs z hz]

/-- A successful front match needs at least the pattern's length. -/
theorem length_le_of_ciStarts : ∀ (pat x : List Char), ciStarts pat x = true →
    pat.length ≤ x.length := by
  intro pat
  induction pat with
  | nil => intro x _; simp
  | cons p ps ih =>
    intro x h
    cases x with
    | nil => simp [ciStarts] at h
    | cons a xs =>
      rw [ciStarts, Bool.and_eq_true] at h
      simpa using Nat.succ_le_succ (ih xs h.2)

/-- Appending beyond a non-word barrier does not change a whole-word match
at the front. -/
theorem wwAt_append_barrier (pat : List Char) (hword : pat.all isWordChar = true)
    (w : Bool) (x z : List Char) (hz : ∀ d, z.head? = some d → isWordChar d = false) :
    wwAt pat w (x ++ z) = wwAt pat w x := by
  rw [wwAt, wwAt, ciStarts_append_barrier pat hword x z hz]
  by_cases hs : ciStarts pat x = true
  · rw [hs]
    have hlen : pat.length ≤ x.length := length_le_of_ciStarts pat x hs
    rw [List.drop_append_of_le_length hlen]
    rcases hdx : x.drop pat.length with _ | ⟨d, ds⟩
    · simp only [List.nil_append]
      cases z with
      | nil => rfl
      | cons e es =>
        have := hz e rfl
        simp [this]
    · simp only [List.cons_append]
  · have hs' : ciStarts pat x = false := by simpa using hs
    rw [hs']
    simp

/-- No whole-word occurrence survives in the replacement text followed by
an occurrence-free continuation behind a non-word barrier. -/
theorem hasWWFrom_append_rep (pat : List Char) (_hne : pat ≠ [])
    (hword : pat.all isWordChar = true) :
    ∀ (rep z : List Char), ciSubOcc pat rep = false →
      (∀ d, z.head? = some d → isWordChar d = false) →
      (∀ w', hasWWFrom pat w' z = false) →
      ∀ w, hasWWFrom pat w (rep ++ z) = false := by
  intro rep
  induction rep with
  | nil => intro z _ _ hout w; exact hout w
  | cons a r ih =>
    intro z hrep hz hout w
    have hrep' : ciStarts pat (a :: r) = false ∧ ciSubOcc pat r = false := by
      rw [ciSubOcc] at hrep
      exact ⟨by rcases Bool.or_eq_false_iff.mp hrep with ⟨h1, _⟩; exact h1,
             by rcases Bool.or_eq_false_iff.mp hrep with ⟨_, h2⟩; exact h2⟩
    simp only [List.cons_append, hasWWFrom]
    rw [Bool.or_eq_false_iff]
    constructor
    · show wwAt pat w ((a :: r) ++ z) = false
      rw [wwAt_append_barrier pat hword w (a :: r) z hz]
      rw [wwAt]
      simp [hrep'.1]
    · exact ih z hrep'.2 hz hout (isWordChar a)

/-- The head of what `dropWhile` leaves fails the predicate. -/
theorem dropWhile_head_false {p : Char → Bool} :
    ∀ (l : List Char) (d : Char), (l.dropWhile p).head? = some d → p d = false := by
  intro l
  induction l with
  | nil => intro d h; simp at h
  | cons a t ih =>
    intro d h
    rw [List.dropWhile_cons] at h
    by_cases ha : p a = true
    · rw [if_pos ha] at h
      exact ih d h
    · rw [if_neg ha] at h
      simp only [List.head?_cons, Option.some.injEq] at h
      subst h
      exact Bool.not_eq_true _ |>.mp ha

/-- From the all-blocked state the scan copies the leading word run
verbatim and continues on the remainder. -/
theorem wwRun_word_run (pat rep : List Char) (hne : pat ≠ []) :
    ∀ s : List Char, wwRun pat rep true s =
      s.takeWhile isWordChar ++ wwRun pat rep true (s.dropWhile isWordChar) := by
  intro s
  induction s with
  | nil => rfl
  | cons c cs ih =>
    have hm : wwAt pat true (c :: cs) = false := by
      rw [wwAt]
      rfl
    rw [wwRun_cons pat rep hne true c cs, hm]
    simp only [Bool.false_eq_true, if_false]
    by_cases hc : isWordChar c = true
    · rw [List.takeWhile_cons_of_pos hc, List.dropWhile_cons_of_pos hc, List.cons_append, hc, ih]
    · have hc' : isWordChar c = false := by simpa using hc
      rw [List.takeWhile_cons_of_neg (by simp [hc']), List.dropWhile_cons_of_neg (by simp [hc']),
        List.nil_append, wwRun_cons pat rep hne true c cs, hm]
      simp only [Bool.false_eq_true, if_false]

/-- At a non-word character the scan always copies the character,
whatever the preceding state. -/
theorem wwRun_nonword_head (pat rep : List Char) (hne : pat ≠ [])
    (hword : pat.all isWordChar = true) (c : Char) (cs : List Char)
    (hc : isWordChar c = false) (w : Bool) :
    wwRun pat rep w (c :: cs) = c :: wwRun pat rep (isWordChar c) cs := by
  rw [wwRun_cons pat rep hne w c cs]
  cases pat with
  | nil => exact absurd rfl hne
  | cons p ps =>
    have hp : isWordChar p = true := by
      simp only [List.all_cons, Bool.and_eq_true] at hword
      exact hword.1
    have hstart := ciStarts_false_of_nonword p ps c cs hp hc
    rw [wwAt, hstart]
    simp

/-- After the global whole-word replacement of a nonempty all-word-character
pattern by a replacement that does not contain the pattern, no whole-word
occurrence of the pattern remains, from any starting state. -/
theorem hasWWFrom_wwRun_eq_false (pat rep : List Char) (hne : pat ≠ [])
    (hword : pat.all isWordChar = true) (hrep : ciSubOcc pat rep = false) :
    ∀ (s : List Char) (w : Bool), hasWWFrom pat w (wwRun pat rep w s) = false := by
  have hplen : 1 ≤ pat.length := by
    cases pat with
    | nil => exact absurd rfl hne
    | cons _ _ => simp
  have main : ∀ n (s : List Char), s.length ≤ n → ∀ w,
      hasWWFrom pat w (wwRun pat rep w s) = false := by
    intro n
    induction n with
    | zero =>
      intro s hs w
      have : s = [] := List.eq_nil_of_length_eq_zero (Nat.le_zero.mp hs)
      subst this
      rfl
    | succ n ih =>
      intro s hs w
      cases s with
      | nil => rfl
      | cons c cs =>
        rw [wwRun_cons pat rep hne w c cs]
        by_cases hm : wwAt pat w (c :: cs) = true
        · rw [if_pos hm, lastIsWord_of_all pat w hne hword]
          have hbound : ∀ d, ((c :: cs).drop pat.length).head? = some d →
              isWordChar d = false := by
            intro d hd
            rw [wwAt, Bool.and_eq_true, Bool.and_eq_true] at hm
            rcases hdrop : (c :: cs).drop pat.length with _ | ⟨e, es⟩
            · rw [hdrop] at hd
              simp at hd
            · rw [hdrop] at hd hm
              simp only [List.head?_cons, Option.some.injEq] at hd
              subst hd
              have := hm.2
              simpa using this
          have hlen' : ((c :: cs).drop pat.length).length ≤ n := by
            rw [List.length_drop]
            simp only [List.length_cons] at hs ⊢
            omega
          have hz : ∀ d, (wwRun pat rep true ((c :: cs).drop pat.length)).head? = some d →
              isWordChar d = false := by
            intro d hd
            rcases hdrop : (c :: cs).drop pat.length with _ | ⟨e, es⟩
            · rw [hdrop] at hd
              simp [wwRun, wwScan] at hd
            · rw [hdrop] at hd
              have he : isWordChar e = false := hbound e (by rw [hdrop]; rfl)
              rw [wwRun_nonword_head pat rep hne hword e es he true] at hd
              simp only [List.head?_cons, Option.some.injEq] at hd
              subst hd
              exact he
          have hout : ∀ w', hasWWFrom pat w'
              (wwRun pat rep true ((c :: cs).drop pat.length)) = false := by
            intro w'
            rcases hdrop : (c :: cs).drop pat.length with _ | ⟨e, es⟩
            · rfl
            · have he : isWordChar e = false := hbound e (by rw [hdrop]; rfl)
              rw [wwRun_nonword_head pat rep hne hword e es he true]
              rw [hasWWFrom_state_irrelevant pat hne hword e _ he w' (isWordChar e)]
              rw [← wwRun_nonword_head pat rep hne hword e es he true]
              have := ih (e :: es) (by rw [hdrop] at hlen'; exact hlen') true
              rw [wwRun_nonword_head pat rep hne hword e es he true] at this ⊢
              rw [hasWWFrom_state_irrelevant pat hne hword e _ he (isWordChar e) true]
              exact this
          exact hasWWFrom_append_rep pat hne hword rep _ hrep hz hout w
        · rw [if_neg hm]
          have hm' : wwAt pat w (c :: cs) = false := by simpa using hm
          rw [hasWWFrom, Bool.or_eq_false_iff]
          refine ⟨?_, ih cs (by simpa using Nat.le_of_succ_le_succ hs) (isWordChar c)⟩
          by_cases hc : isWordChar c = true
          · rw [hc]
            have hvz : ∀ d, (List.dropWhile isWordChar cs).head? = some d →
                isWordChar d = false := fun d hd => dropWhile_head_false cs d hd
            have hzz : ∀ d, (wwRun pat rep true (List.dropWhile isWordChar cs)).head? = some d →
                isWordChar d = false := by
              intro d hd
              rcases hdw : List.dropWhile isWordChar cs with _ | ⟨e, es⟩
              · rw [hdw] at hd
                simp [wwRun, wwScan] at hd
              · rw [hdw] at hd
                have he : isWordChar e = false := hvz e (by rw [hdw]; rfl)
                rw [wwRun_nonword_head pat rep hne hword e es he true] at hd
                simp only [List.head?_cons, Option.some.injEq] at hd
                subst hd
                exact he
            calc wwAt pat w (c :: wwRun pat rep true cs)
                = wwAt pat w (c :: (List.takeWhile isWordChar cs ++
                    wwRun pat rep true (List.dropWhile isWordChar cs))) := by
                  rw [← wwRun_word_run pat rep hne cs]
              _ = wwAt pat w ((c :: List.takeWhile isWordChar cs) ++
                    wwRun pat rep true (List.dropWhile isWordChar cs)) := by
                  rw [List.cons_append]
              _ = wwAt pat w (c :: List.takeWhile isWordChar cs) :=
                  wwAt_append_barrier pat hword w _ _ hzz
              _ = wwAt pat w ((c :: List.takeWhile isWordChar cs) ++
                    List.dropWhile isWordChar cs) :=
                  (wwAt_append_barrier pat hword w _ _ hvz).symm
              _ = wwAt pat w (c :: cs) := by
                  rw [List.cons_append, List.takeWhile_append_dropWhile]
              _ = false := hm'
          · have hc' : isWordChar c = false := by simpa using hc
            cases pat with
            | nil => exact absurd rfl hne
            | cons p ps =>
              have hp : isWordChar p = true := by
                simp only [List.all_cons, Bool.and_eq_true] at hword
                exact hword.1
              rw [wwAt, ciStarts_false_of_nonword p ps c _ hp hc']
              simp
  exact fun s w => main s.length s (le_refl _) w

/-- C8: each table pass replaces every whole-word, case-insensitive
occurrence of the abbreviation (nothing standalone survives a pass whose
expansion does not itself contain the abbreviation), `expandAbbreviations`
is the fold of those passes in table order, and on the specification's
example the result is `"Take 1 tablet twice a day"`: it contains
`"twice a day"` and no standalone token `"bid"`. -/
theorem expandAbbreviations_spec :
    (∀ pat rep text : List Char, pat ≠ [] → pat.all isWordChar = true →
      ciSubOcc pat rep = false → hasWholeWord pat (replaceWW pat rep text) = false) ∧
    expandAbbreviations "Take 1 tablet bid" = "Take 1 tablet twice a day" ∧
    ciSubOcc "twice a day".data (expandAbbreviations "Take 1 tablet bid").data = true ∧
    hasWholeWord "bid".data (expandAbbreviations "Take 1 tablet bid").data = false := by
  refine ⟨?_, by decide, by decide, by decide⟩
  intro pat rep text hne hword hrep
  exact hasWWFrom_wwRun_eq_false pat rep hne hword hrep text false

/-- Witness for C8: the first table pass (`bid` → `"twice a day"`) leaves
no standalone `bid` in the example input. -/
theorem expandAbbreviations_spec_witness :
    hasWholeWord "bid".data (replaceWW "bid".data "twice a day".data "Take 1 tablet bid".data) = false :=
  expandAbbreviations_spec.1 "bid".data "twice a day".data "Take 1 tablet bid".data
    (by decide) (by decide) (by decide)
